import Mathlib

/-!
Shallow embedding of the estimation core of
src/project3/drone_proj3/drone_estimator.py (a planar-quadrotor
state-estimation exercise: dead reckoning and an extended Kalman filter).

Numeric values in the source are Python floats manipulated with numpy;
the embedding works over an arbitrary linearly ordered field so that the
exact-arithmetic content of every claim can be stated, and witnesses can
be evaluated over the rationals.  The transcendental functions used by
the source, np.sin, np.cos and np.sqrt, are abstracted as an explicit
environment of scalar functions; no claim below depends on a property of
those functions that is not stated as an explicit hypothesis.
-/

namespace Drone

open Matrix

/-- Environment packaging the numpy scalar functions used by the source
(np.sin, np.cos, np.sqrt). -/
structure Env (K : Type) where
  sin : K → K
  cos : K → K
  sqrt : K → K

/-- State vector, source order: x-position, z-position, bearing phi,
x-velocity, z-velocity, angular velocity. -/
abbrev State (K : Type) := Fin 6 → K

/-- Input vector: thrust and wheel speed (source attribute self.u entries). -/
abbrev Input (K : Type) := Fin 2 → K

/-- Observation vector: distance to landmark and bearing. -/
abbrev Obs (K : Type) := Fin 2 → K

variable {K : Type} [LinearOrderedField K]

/-- Gravity constant, source: self.gr = 9.81. -/
def gr : K := 981 / 100

/-- Mass constant, source: self.m = 0.92. -/
def m : K := 23 / 25

/-- Moment of inertia, source: self.J = 0.0023. -/
def Jmom : K := 23 / 10000

/-- Drift vector b = [x_dot, z_dot, phi_dot, 0, -gr, 0] appearing both in
DeadReckoning.update and in ExtendedKalmanFilter.g. -/
def bVec (xd zd phid : K) : State K :=
  ![xd, zd, phid, 0, -gr, 0]

/-- Input matrix A built inside DeadReckoning.update.  Note the entry 1 in
row 4 column 1: the wheel input is added to the z-velocity derivative. -/
def drA (env : Env K) (phi : K) : Matrix (Fin 6) (Fin 2) K :=
  Matrix.of ![![0, 0], ![0, 0], ![0, 0],
    ![-env.sin phi / m, 0], ![env.cos phi / m, 1], ![0, 1 / Jmom]]

/-- One step of DeadReckoning.update.  With t = len(x_hat), the source reads
phi, x_dot, z_dot, phi_dot from the TRUE state self.x[t-1], builds A and b,
and appends x_hat[t-1] + (b + A @ u[t]) * dt. -/
def deadReckonStep (env : Env K) (dt : K) (xTruePrev xHatPrev : State K)
    (u : Input K) : State K :=
  xHatPrev +
    (fun i => (bVec (xTruePrev 3) (xTruePrev 4) (xTruePrev 5) i +
      (drA env (xTruePrev 2)).mulVec u i) * dt)

/-- Estimate sequence produced by the dead-reckoning loop: index 0 is seeded
from the true initial state (Estimator.run), and the update at index n+1 uses
the true state at index n and the input at index n+1 (source indices
self.x[t-1] and self.u[t] with t = n+1). -/
def drEstimate (env : Env K) (dt : K) (xs : ℕ → State K) (us : ℕ → Input K) :
    ℕ → State K
  | 0 => xs 0
  | n + 1 => deadReckonStep env dt (xs n) (drEstimate env dt xs us n) (us (n + 1))

/-- Input matrix A built inside ExtendedKalmanFilter.g; identical to the
dead-reckoning one except that row 4 column 1 is 0. -/
def gA (env : Env K) (phi : K) : Matrix (Fin 6) (Fin 2) K :=
  Matrix.of ![![0, 0], ![0, 0], ![0, 0],
    ![-env.sin phi / m, 0], ![env.cos phi / m, 0], ![0, 1 / Jmom]]

/-- Motion propagation ExtendedKalmanFilter.g: x + (b + A @ u) * dt with
phi, x_dot, z_dot, phi_dot read from the supplied state x itself. -/
def g (env : Env K) (dt : K) (x : State K) (u : Input K) : State K :=
  x + (fun i => (bVec (x 3) (x 4) (x 5) i + (gA env (x 2)).mulVec u i) * dt)

/-- Radicand of the landmark distance computed in ExtendedKalmanFilter.h and
ExtendedKalmanFilter.approx_C (and for both states in Estimator.calcError):
(l_x - x[0])**2 + l_y**2 + (l_z - x[1])**2 with landmark (0, 5, 5). -/
def distSq (x : State K) : K :=
  (0 - x 0) ^ 2 + 5 ^ 2 + (5 - x 1) ^ 2

/-- Observation model ExtendedKalmanFilter.h: distance to the landmark and
the bearing component of the state, unchanged. -/
def h (env : Env K) (x : State K) : Obs K :=
  ![env.sqrt (distSq x), x 2]

/-- Motion Jacobian ExtendedKalmanFilter.approx_A: np.eye(6) with the five
entries (0,3), (1,4), (2,5), (3,2), (4,2) overwritten. -/
def approx_A (env : Env K) (dt : K) (x : State K) (u : Input K) :
    Matrix (Fin 6) (Fin 6) K :=
  Matrix.of fun i j =>
    if i = 0 ∧ j = 3 then dt
    else if i = 1 ∧ j = 4 then dt
    else if i = 2 ∧ j = 5 then dt
    else if i = 3 ∧ j = 2 then -dt * env.cos (x 2) / m * u 0
    else if i = 4 ∧ j = 2 then -dt * env.sin (x 2) / m * u 0
    else if i = j then 1 else 0

/-- Observation Jacobian ExtendedKalmanFilter.approx_C: a 2 by 6 matrix of
zeros with jac[0,0] = (x[0] - l_x)/d, jac[0,1] = (x[1] - l_z)/d,
jac[1,2] = 1, where d is the same distance as in h. -/
def approx_C (env : Env K) (x : State K) : Matrix (Fin 2) (Fin 6) K :=
  Matrix.of ![![(x 0 - 0) / env.sqrt (distSq x), (x 1 - 5) / env.sqrt (distSq x), 0, 0, 0, 0],
    ![0, 0, 1, 0, 0, 0]]

/-- Process noise Q = np.diag([0.05, 0.1, 1000, 0.05, 0.05, 0.5]). -/
def Q : Matrix (Fin 6) (Fin 6) K :=
  Matrix.diagonal ![1 / 20, 1 / 10, 1000, 1 / 20, 1 / 20, 1 / 2]

/-- Measurement noise R = np.diag([1000, 2]). -/
def R : Matrix (Fin 2) (Fin 2) K :=
  Matrix.diagonal ![1000, 2]

/-- Initial covariance P = np.diag([0.05, 0.1, 1000, 0.05, 0.05, 0.5]). -/
def P0 : Matrix (Fin 6) (Fin 6) K :=
  Matrix.diagonal ![1 / 20, 1 / 10, 1000, 1 / 20, 1 / 20, 1 / 2]

/-- Determinant of a 2 by 2 matrix, written out. -/
def det2 (S : Matrix (Fin 2) (Fin 2) K) : K :=
  S 0 0 * S 1 1 - S 0 1 * S 1 0

/-- Value of the 2 by 2 inverse (adjugate over determinant), the matrix
np.linalg.inv returns whenever the argument is nonsingular. -/
def inv2val (S : Matrix (Fin 2) (Fin 2) K) : Matrix (Fin 2) (Fin 2) K :=
  Matrix.of ![![S 1 1 / det2 S, -S 0 1 / det2 S],
    ![-S 1 0 / det2 S, S 0 0 / det2 S]]

/-- Mutable state of the ExtendedKalmanFilter estimator: the last appended
estimate self.x_hat[t-1] and the stored covariance self.P. -/
structure EKFState (K : Type) where
  xhat : State K
  P : Matrix (Fin 6) (Fin 6) K

/-- Predicted state x_prediction = self.g(self.x_hat[t-1], self.u[t-1]). -/
def statePred (env : Env K) (dt : K) (s : EKFState K) (u : Input K) : State K :=
  g env dt s.xhat u

/-- Predicted covariance P = A @ P @ A.T + Q with
A = self.approx_A(self.x_hat[t-1], self.u[t-1]). -/
def covPred (env : Env K) (dt : K) (s : EKFState K) (u : Input K) :
    Matrix (Fin 6) (Fin 6) K :=
  approx_A env dt s.xhat u * s.P * (approx_A env dt s.xhat u)ᵀ + Q

/-- Observation Jacobian C = self.approx_C(x_prediction). -/
def obsJac (env : Env K) (dt : K) (s : EKFState K) (u : Input K) :
    Matrix (Fin 2) (Fin 6) K :=
  approx_C env (statePred env dt s u)

/-- Innovation covariance C @ P @ C.T + R, the matrix passed to
np.linalg.inv in the gain computation. -/
def innovCov (env : Env K) (dt : K) (s : EKFState K) (u : Input K) :
    Matrix (Fin 2) (Fin 2) K :=
  obsJac env dt s u * covPred env dt s u * (obsJac env dt s u)ᵀ + R

/-- Kalman gain K = P @ C.T @ np.linalg.inv(C @ P @ C.T + R), written with
the explicit 2 by 2 inverse value. -/
def Kgain (env : Env K) (dt : K) (s : EKFState K) (u : Input K) :
    Matrix (Fin 6) (Fin 2) K :=
  covPred env dt s u * (obsJac env dt s u)ᵀ * inv2val (innovCov env dt s u)

/-- One step of ExtendedKalmanFilter.update.  np.linalg.inv raises on an
exactly singular argument, so the step is modelled as failing (none) when
the determinant of the innovation covariance is zero; otherwise it returns
the corrected estimate new = x_prediction + K @ (y[t] - h(x_prediction))
and the stored covariance (I - K @ C) @ P. -/
def ekfUpdate [DecidableEq K] (env : Env K) (dt : K) (s : EKFState K)
    (u : Input K) (y : Obs K) : Option (EKFState K) :=
  if det2 (innovCov env dt s u) = 0 then none
  else some
    ⟨statePred env dt s u +
        (Kgain env dt s u).mulVec (y - h env (statePred env dt s u)),
      (1 - Kgain env dt s u * obsJac env dt s u) * covPred env dt s u⟩

/-- Threshold 1e-10 used by Estimator.calcError for the relative errors. -/
def eps : K := 1 / 10000000000

/-- Distance to the landmark used in Estimator.calcError, computed for the
true state (true_dist) and for the estimate (est_dist) alike. -/
def landDist (env : Env K) (x : State K) : K := env.sqrt (distSq x)

/-- Accumulator relErrorX of Estimator.calcError after the first n loop
iterations: absX / abs(x[i][0]) is added only when abs(x[i][0]) > 1e-10. -/
def relAccX (xs xh : ℕ → State K) : ℕ → K
  | 0 => 0
  | n + 1 =>
    if eps < |xs n 0| then relAccX xs xh n + |xs n 0 - xh n 0| / |xs n 0|
    else relAccX xs xh n

/-- Accumulator relErrorZ of Estimator.calcError. -/
def relAccZ (xs xh : ℕ → State K) : ℕ → K
  | 0 => 0
  | n + 1 =>
    if eps < |xs n 1| then relAccZ xs xh n + |xs n 1 - xh n 1| / |xs n 1|
    else relAccZ xs xh n

/-- Accumulator relErrorPhi of Estimator.calcError. -/
def relAccPhi (xs xh : ℕ → State K) : ℕ → K
  | 0 => 0
  | n + 1 =>
    if eps < |xs n 2| then relAccPhi xs xh n + |xs n 2 - xh n 2| / |xs n 2|
    else relAccPhi xs xh n

/-- Accumulator relErrorDist of Estimator.calcError: the guard in the source
is true_dist > 1e-10 (no absolute value around true_dist). -/
def relAccDist (env : Env K) (xs xh : ℕ → State K) : ℕ → K
  | 0 => 0
  | n + 1 =>
    if eps < landDist env (xs n) then
      relAccDist env xs xh n +
        |landDist env (xs n) - landDist env (xh n)| / landDist env (xs n)
    else relAccDist env xs xh n

/-- Reported average for relErrorX: the accumulated sum divided by
n = len(self.x) when n > 0 (the source guards the division by if n > 0). -/
def relAvgX (xs xh : ℕ → State K) (N : ℕ) : K :=
  if 0 < N then relAccX xs xh N / N else relAccX xs xh N

/-- Reported average for relErrorZ. -/
def relAvgZ (xs xh : ℕ → State K) (N : ℕ) : K :=
  if 0 < N then relAccZ xs xh N / N else relAccZ xs xh N

/-- Reported average for relErrorPhi. -/
def relAvgPhi (xs xh : ℕ → State K) (N : ℕ) : K :=
  if 0 < N then relAccPhi xs xh N / N else relAccPhi xs xh N

/-- Reported average for relErrorDist. -/
def relAvgDist (env : Env K) (xs xh : ℕ → State K) (N : ℕ) : K :=
  if 0 < N then relAccDist env xs xh N / N else relAccDist env xs xh N

/-!  Concrete data used by witnesses and counterexamples, over the
rationals.  The environments instantiate the abstract numpy functions with
simple total functions; no theorem below relies on the particular choice
except through hypotheses it discharges explicitly. -/

/-- Environment sending sin, cos and sqrt each to the zero function. -/
def env0 : Env ℚ := ⟨fun _ => 0, fun _ => 0, fun _ => 0⟩

/-- Environment whose sqrt is the constant one function, so that the
observation Jacobian divisions are by one. -/
def env1 : Env ℚ := ⟨fun _ => 0, fun _ => 0, fun _ => 1⟩

/-- All-zero state. -/
def zeroState : State ℚ := fun _ => 0

/-- All-zero input. -/
def zeroInput : Input ℚ := fun _ => 0

/-- All-zero observation. -/
def zeroObs : Obs ℚ := fun _ => 0

/-- Input with zero thrust and unit wheel speed. -/
def oneWheel : Input ℚ := ![0, 1]

/-- State whose x-velocity component is one, all else zero. -/
def e3State : State ℚ := fun i => if i = 3 then 1 else 0

/-- EKF state with all-zero estimate and all-zero covariance. -/
def s1 : EKFState ℚ := ⟨zeroState, 0⟩

/-- True-state sequence that is identically zero. -/
def xsA : ℕ → State ℚ := fun _ => zeroState

/-- True-state sequence agreeing with xsA at index 0 but perturbed at
index 1. -/
def xsB : ℕ → State ℚ := fun n => if n = 1 then e3State else zeroState

/-- Input sequence that is identically zero. -/
def usZ : ℕ → Input ℚ := fun _ => zeroInput

/-- Estimate sequence that is identically zero. -/
def xsZ : ℕ → State ℚ := fun _ => zeroState

/-!  Supporting lemmas. -/

/-- Evaluation of a six-entry vector at index five. -/
theorem vec6_val_five {α : Type} (x : α) (u : Fin 5 → α) :
    Matrix.vecCons x u 5 = u 4 := rfl

/-- Evaluation of a five-entry vector at index four. -/
theorem vec5_val_four {α : Type} (x : α) (u : Fin 4 → α) :
    Matrix.vecCons x u 4 = u 3 := rfl

/-- Evaluation of a four-entry vector at index three. -/
theorem vec4_val_three {α : Type} (x : α) (u : Fin 3 → α) :
    Matrix.vecCons x u 3 = u 2 := rfl

/-- Evaluation of a three-entry vector at index two. -/
theorem vec3_val_two {α : Type} (x : α) (u : Fin 2 → α) :
    Matrix.vecCons x u 2 = u 1 := rfl

/-- The explicit 2 by 2 inverse value is a right inverse whenever the
determinant is nonzero. -/
theorem mul_inv2val (S : Matrix (Fin 2) (Fin 2) K) (hdet : det2 S ≠ 0) :
    S * inv2val S = 1 := by
  ext i j
  fin_cases i <;> fin_cases j <;>
    · simp [inv2val, Matrix.mul_apply, Fin.sum_univ_two, Matrix.one_apply,
        Fin.mk_zero, Fin.mk_one]
      field_simp
      first
      | (unfold det2; ring)
      | ring

/-- Whenever the determinant is nonzero, the explicit 2 by 2 inverse value
agrees with the matrix inverse. -/
theorem inv2val_eq_inv (S : Matrix (Fin 2) (Fin 2) K) (hdet : det2 S ≠ 0) :
    inv2val S = S⁻¹ :=
  (Matrix.inv_eq_right_inv (mul_inv2val S hdet)).symm

/-- The explicit 2 by 2 inverse of a symmetric matrix is symmetric. -/
theorem inv2val_symm (S : Matrix (Fin 2) (Fin 2) K) (hS : Sᵀ = S) :
    (inv2val S)ᵀ = inv2val S := by
  have h01 : S 1 0 = S 0 1 := congrFun (congrFun hS 0) 1
  ext i j
  fin_cases i <;> fin_cases j <;>
    simp [inv2val, Matrix.transpose_apply, det2, h01]

/-- The predicted covariance A P Aᵀ + Q is symmetric when P is. -/
theorem covPred_symm (env : Env K) (dt : K) (s : EKFState K) (u : Input K)
    (hP : (s.P)ᵀ = s.P) : (covPred env dt s u)ᵀ = covPred env dt s u := by
  simp [covPred, Matrix.transpose_add, Matrix.transpose_mul,
    Matrix.transpose_transpose, Q, Matrix.diagonal_transpose, hP, Matrix.mul_assoc]

/-- The innovation covariance C P Cᵀ + R is symmetric when P is. -/
theorem innovCov_symm (env : Env K) (dt : K) (s : EKFState K) (u : Input K)
    (hP : (s.P)ᵀ = s.P) : (innovCov env dt s u)ᵀ = innovCov env dt s u := by
  have h1 := covPred_symm env dt s u hP
  simp [innovCov, Matrix.transpose_add, Matrix.transpose_mul,
    Matrix.transpose_transpose, R, Matrix.diagonal_transpose, h1, ← Matrix.mul_assoc]

/-- Symmetry of the posterior covariance (I - P1 Cᵀ Sv C) P1 for symmetric
P1 and Sv. -/
theorem posterior_symm (P1 : Matrix (Fin 6) (Fin 6) K)
    (C : Matrix (Fin 2) (Fin 6) K) (Sv : Matrix (Fin 2) (Fin 2) K)
    (hP1 : P1ᵀ = P1) (hSv : Svᵀ = Sv) :
    ((1 - P1 * Cᵀ * Sv * C) * P1)ᵀ = (1 - P1 * Cᵀ * Sv * C) * P1 := by
  have expand : (1 - P1 * Cᵀ * Sv * C) * P1 = P1 - P1 * Cᵀ * Sv * C * P1 := by
    rw [sub_mul, one_mul]
  rw [expand, Matrix.transpose_sub, hP1]
  congr 1
  simp [Matrix.transpose_mul, Matrix.transpose_transpose, hP1, hSv, Matrix.mul_assoc]

/-- C5: for every state, ExtendedKalmanFilter.h returns a 2-vector whose
first component is the Euclidean distance from (x-position, 0, z-position)
to the landmark (0, 5, 5), the middle landmark coordinate acting as a fixed
lateral offset, and whose second component is the bearing unchanged; at
x-position = 0 and z-position = 0 the radicand is 0 + 25 + 25 = 50, so the
returned distance is sqrt 50. -/
theorem h_observe_euclidean (env : Env K) :
    (∀ x : State K,
      h env x = ![env.sqrt ((x 0 - 0) ^ 2 + (0 - 5) ^ 2 + (x 1 - 5) ^ 2), x 2]) ∧
    h env (fun _ => 0) = ![env.sqrt 50, 0] := by
  constructor
  · intro x
    have harg : distSq x = (x 0 - 0) ^ 2 + (0 - 5) ^ 2 + (x 1 - 5) ^ 2 := by
      unfold distSq
      ring
    simp only [h, harg]
  · have harg : distSq (fun _ => (0 : K)) = 50 := by
      unfold distSq
      norm_num
    simp only [h, harg]

/-- C6 counterexample: at the state that coincides with the landmark
projection in the x-z plane (x-position 0, z-position 5), the radicand of
the distance computed by h and approx_C is 25, not 0, so the computed
distance is sqrt 25 = 5 and no NaN or division by zero arises there. -/
theorem distSq_at_projection_not_zero :
    distSq (fun i : Fin 6 => if i = 1 then (5 : ℚ) else 0) = 25 ∧ (25 : ℚ) ≠ 0 := by
  constructor
  · unfold distSq
    norm_num
  · norm_num

/-- C6 amended: observe never fails: for every state the radicand of the
distance is at least 25 (the fixed lateral offset 5 contributes 25), hence
never zero and never negative, so h produces no NaN and approx_C never
divides by a zero distance. -/
theorem distSq_lower_bound : ∀ x : State K, 25 ≤ distSq x ∧ distSq x ≠ 0 := by
  intro x
  have h25 : (25 : K) ≤ distSq x := by
    unfold distSq
    nlinarith [sq_nonneg (x 0), sq_nonneg (5 - x 1)]
  refine ⟨h25, ?_⟩
  have hpos : (0 : K) < 25 := by norm_num
  exact (lt_of_lt_of_le hpos h25).ne'

/-- C7 counterexample: the motion-model linearization approx_A starts from
np.eye(6), so the unlisted entry (0,0) equals 1, not 0. -/
theorem approx_A_diag_entry_one :
    approx_A env0 1 zeroState zeroInput 0 0 = 1 ∧ (1 : ℚ) ≠ 0 := by
  constructor
  · simp [approx_A]
  · norm_num

/-- C7 amended: approx_A has the five listed entries, value 1 on the whole
main diagonal (the Jacobian of x + dt f includes the identity), and zero
everywhere else. -/
theorem approx_A_entries (env : Env K) (dt : K) (x : State K) (u : Input K) :
    (∀ i, approx_A env dt x u i i = 1) ∧
    approx_A env dt x u 0 3 = dt ∧
    approx_A env dt x u 1 4 = dt ∧
    approx_A env dt x u 2 5 = dt ∧
    approx_A env dt x u 3 2 = -dt * env.cos (x 2) / m * u 0 ∧
    approx_A env dt x u 4 2 = -dt * env.sin (x 2) / m * u 0 ∧
    ∀ i j, i ≠ j →
      ((i, j) ≠ ((0 : Fin 6), (3 : Fin 6)) ∧ (i, j) ≠ (1, 4) ∧ (i, j) ≠ (2, 5) ∧
        (i, j) ≠ (3, 2) ∧ (i, j) ≠ (4, 2)) →
      approx_A env dt x u i j = 0 := by
  refine ⟨?_, by simp [approx_A], by simp [approx_A], by simp [approx_A],
    by simp [approx_A], by simp [approx_A], ?_⟩
  · intro i
    fin_cases i <;> simp [approx_A]
  · intro i j hne hnotin
    obtain ⟨h1, h2, h3, h4, h5⟩ := hnotin
    fin_cases i <;> fin_cases j <;>
      first
      | rfl
      | exact absurd rfl hne
      | exact absurd rfl h1
      | exact absurd rfl h2
      | exact absurd rfl h3
      | exact absurd rfl h4
      | exact absurd rfl h5

/-- C7 witness: instantiating the amended characterization at the concrete
off-diagonal, unlisted entry (0, 1). -/
theorem approx_A_entries_check :
    approx_A env0 1 zeroState zeroInput 0 1 = 0 :=
  (approx_A_entries env0 1 zeroState zeroInput).2.2.2.2.2.2 0 1 (by decide)
    ⟨by decide, by decide, by decide, by decide, by decide⟩

/-- C10 counterexample: with both previous states zero, thrust 0 and wheel
input 1, the dead-reckoning propagation and ExtendedKalmanFilter.g disagree
(the z-velocity component differs by dt times the wheel input). -/
theorem dr_step_ne_g :
    deadReckonStep env0 1 zeroState zeroState oneWheel ≠
      g env0 1 zeroState oneWheel := by
  intro hEq
  have h4 := congrFun hEq 4
  norm_num [deadReckonStep, g, bVec, drA, gA, env0, zeroState, oneWheel,
    Matrix.mulVec, Matrix.dotProduct, Fin.sum_univ_two, gr, m, Jmom] at h4

/-- C10 amended: when the dead-reckoning previous estimate and the true
previous state it reads both equal x, the dead-reckoning propagation agrees
with ExtendedKalmanFilter.g on every component except the z-velocity
(index 4), where it exceeds g by dt times the wheel input u 1. -/
theorem dr_step_eq_g_except_zvel (env : Env K) (dt : K) (x : State K)
    (u : Input K) :
    deadReckonStep env dt x x u =
      g env dt x u + (fun i => if i = 4 then dt * u 1 else 0) := by
  funext i
  fin_cases i <;>
    simp [deadReckonStep, g, bVec, drA, gA, Matrix.mulVec, Matrix.dotProduct,
      Fin.sum_univ_two, Pi.add_apply, vec6_val_five, vec5_val_four,
      vec4_val_three, vec3_val_two, Matrix.vecHead, Matrix.vecTail] <;>
    ring

/-- C3: DeadReckoning.update does not append predict(previousEstimate,
input, dt) for the stated dynamics: first, its derivative terms are read
from the true previous state, so a perturbed true x-velocity shifts the
appended x-position even though the previous estimate is unchanged; second,
the wheel input is added directly into the z-velocity derivative (the entry
1 in row 4 of its input matrix), which the stated dynamics, and with them
ExtendedKalmanFilter.g, do not have. -/
theorem dr_update_divergences :
    deadReckonStep env0 1 e3State zeroState zeroInput ≠
      g env0 1 zeroState zeroInput ∧
    deadReckonStep env0 1 zeroState zeroState oneWheel ≠
      g env0 1 zeroState oneWheel := by
  constructor
  · intro hEq
    have h0 := congrFun hEq 0
    norm_num [deadReckonStep, g, bVec, drA, gA, env0, zeroState, e3State,
      zeroInput, Matrix.mulVec, Matrix.dotProduct, Fin.sum_univ_two, gr, m,
      Jmom] at h0
  · intro hEq
    have h4 := congrFun hEq 4
    norm_num [deadReckonStep, g, bVec, drA, gA, env0, zeroState, oneWheel,
      Matrix.mulVec, Matrix.dotProduct, Fin.sum_univ_two, gr, m, Jmom] at h4

/-- At the concrete data used by the witnesses below, the innovation
covariance is nonsingular. -/
theorem det2_innovCov_ne : det2 (innovCov env1 1 s1 zeroInput) ≠ 0 := by
  simp [det2, innovCov, obsJac, covPred, statePred, g, gA, bVec, approx_A,
    approx_C, distSq, Q, R, s1, env1, zeroState, zeroInput, Matrix.mul_apply,
    Matrix.mulVec, Matrix.dotProduct, Fin.sum_univ_six, Fin.sum_univ_two,
    Matrix.diagonal, Matrix.transpose_apply, gr, m, Jmom, Matrix.vecMul,
    Matrix.vecHead, Matrix.vecTail, Function.comp, Matrix.head_cons,
    Matrix.tail_cons, smul_eq_mul, Matrix.smul_cons]
  norm_num

/-- C1: whenever the innovation covariance is nonsingular (so that
np.linalg.inv succeeds), ExtendedKalmanFilter.update computes exactly the
stated recursion: statePred = g(prevEstimate, input); F = approx_A at the
previous estimate and input; covPred = F P Fᵀ + Q; H = approx_C(statePred);
K = covPred Hᵀ (H covPred Hᵀ + R)⁻¹; the appended estimate is
statePred + K (y - h(statePred)); the stored covariance is
(I - K H) covPred.  In particular the gain and the covariance update use
the predicted covariance, not the prior. -/
theorem ekf_update_matches_recursion [DecidableEq K] (env : Env K) (dt : K)
    (s : EKFState K) (u : Input K) (y : Obs K)
    (hdet : det2 (innovCov env dt s u) ≠ 0) :
    ekfUpdate env dt s u y =
      some ⟨g env dt s.xhat u +
          ((approx_A env dt s.xhat u * s.P * (approx_A env dt s.xhat u)ᵀ + Q) *
              (approx_C env (g env dt s.xhat u))ᵀ *
              (approx_C env (g env dt s.xhat u) *
                  (approx_A env dt s.xhat u * s.P * (approx_A env dt s.xhat u)ᵀ + Q) *
                  (approx_C env (g env dt s.xhat u))ᵀ + R)⁻¹).mulVec
            (y - h env (g env dt s.xhat u)),
        (1 - (approx_A env dt s.xhat u * s.P * (approx_A env dt s.xhat u)ᵀ + Q) *
              (approx_C env (g env dt s.xhat u))ᵀ *
              (approx_C env (g env dt s.xhat u) *
                  (approx_A env dt s.xhat u * s.P * (approx_A env dt s.xhat u)ᵀ + Q) *
                  (approx_C env (g env dt s.xhat u))ᵀ + R)⁻¹ *
              approx_C env (g env dt s.xhat u)) *
          (approx_A env dt s.xhat u * s.P * (approx_A env dt s.xhat u)ᵀ + Q)⟩ := by
  have hinv : inv2val (innovCov env dt s u) = (innovCov env dt s u)⁻¹ :=
    inv2val_eq_inv _ hdet
  show ekfUpdate env dt s u y =
    some ⟨statePred env dt s u +
        (covPred env dt s u * (obsJac env dt s u)ᵀ *
          (innovCov env dt s u)⁻¹).mulVec (y - h env (statePred env dt s u)),
      (1 - covPred env dt s u * (obsJac env dt s u)ᵀ *
          (innovCov env dt s u)⁻¹ * obsJac env dt s u) * covPred env dt s u⟩
  rw [← hinv]
  unfold ekfUpdate
  rw [if_neg hdet]
  rfl

/-- C1 witness: the recursion equality instantiated at concrete data where
the nonsingularity hypothesis is discharged by computation. -/
theorem ekf_update_matches_recursion_check :
    ekfUpdate env1 1 s1 zeroInput zeroObs =
      some ⟨g env1 1 s1.xhat zeroInput +
          ((approx_A env1 1 s1.xhat zeroInput * s1.P * (approx_A env1 1 s1.xhat zeroInput)ᵀ + Q) *
              (approx_C env1 (g env1 1 s1.xhat zeroInput))ᵀ *
              (approx_C env1 (g env1 1 s1.xhat zeroInput) *
                  (approx_A env1 1 s1.xhat zeroInput * s1.P * (approx_A env1 1 s1.xhat zeroInput)ᵀ + Q) *
                  (approx_C env1 (g env1 1 s1.xhat zeroInput))ᵀ + R)⁻¹).mulVec
            (zeroObs - h env1 (g env1 1 s1.xhat zeroInput)),
        (1 - (approx_A env1 1 s1.xhat zeroInput * s1.P * (approx_A env1 1 s1.xhat zeroInput)ᵀ + Q) *
              (approx_C env1 (g env1 1 s1.xhat zeroInput))ᵀ *
              (approx_C env1 (g env1 1 s1.xhat zeroInput) *
                  (approx_A env1 1 s1.xhat zeroInput * s1.P * (approx_A env1 1 s1.xhat zeroInput)ᵀ + Q) *
                  (approx_C env1 (g env1 1 s1.xhat zeroInput))ᵀ + R)⁻¹ *
              approx_C env1 (g env1 1 s1.xhat zeroInput)) *
          (approx_A env1 1 s1.xhat zeroInput * s1.P * (approx_A env1 1 s1.xhat zeroInput)ᵀ + Q)⟩ :=
  ekf_update_matches_recursion env1 1 s1 zeroInput zeroObs det2_innovCov_ne

/-- C4: if the stored covariance is symmetric before the update and the
innovation covariance is nonsingular, then the covariance the update stores,
(I - K C) covPred, is symmetric (exactly, in exact arithmetic). -/
theorem ekf_posterior_cov_symm [DecidableEq K] (env : Env K) (dt : K)
    (s : EKFState K) (u : Input K) (y : Obs K) (hP : (s.P)ᵀ = s.P)
    (hdet : det2 (innovCov env dt s u) ≠ 0) :
    ekfUpdate env dt s u y =
      some ⟨statePred env dt s u +
          (Kgain env dt s u).mulVec (y - h env (statePred env dt s u)),
        (1 - Kgain env dt s u * obsJac env dt s u) * covPred env dt s u⟩ ∧
    ((1 - Kgain env dt s u * obsJac env dt s u) * covPred env dt s u)ᵀ =
      (1 - Kgain env dt s u * obsJac env dt s u) * covPred env dt s u := by
  constructor
  · unfold ekfUpdate
    rw [if_neg hdet]
  · have hP1 := covPred_symm env dt s u hP
    have hSv := inv2val_symm _ (innovCov_symm env dt s u hP)
    have hK : Kgain env dt s u =
        covPred env dt s u * (obsJac env dt s u)ᵀ *
          inv2val (innovCov env dt s u) := rfl
    rw [hK]
    exact posterior_symm _ _ _ hP1 hSv

/-- C4 witness: the symmetry conclusion instantiated at concrete data, with
the symmetric-before hypothesis and the nonsingularity hypothesis
discharged by computation. -/
theorem ekf_posterior_cov_symm_check :
    ((1 - Kgain env1 1 s1 zeroInput * obsJac env1 1 s1 zeroInput) *
        covPred env1 1 s1 zeroInput)ᵀ =
      (1 - Kgain env1 1 s1 zeroInput * obsJac env1 1 s1 zeroInput) *
        covPred env1 1 s1 zeroInput :=
  (ekf_posterior_cov_symm env1 1 s1 zeroInput zeroObs
    (by simp [s1]) det2_innovCov_ne).2

/-- C8: the EKF gain computation fails, with the failure surfaced as an
error outcome of the whole step, exactly when the innovation covariance
H covPred Hᵀ + R is singular; it succeeds, producing an updated state,
exactly when that 2 by 2 matrix is invertible. -/
theorem ekf_update_none_iff_singular [DecidableEq K] (env : Env K) (dt : K)
    (s : EKFState K) (u : Input K) (y : Obs K) :
    (ekfUpdate env dt s u y = none ↔ ¬IsUnit (innovCov env dt s u)) ∧
    ((∃ s', ekfUpdate env dt s u y = some s') ↔ IsUnit (innovCov env dt s u)) := by
  have hdet2 : (innovCov env dt s u).det = det2 (innovCov env dt s u) := by
    rw [Matrix.det_fin_two]
    rfl
  have hiff : IsUnit (innovCov env dt s u) ↔ det2 (innovCov env dt s u) ≠ 0 := by
    rw [Matrix.isUnit_iff_isUnit_det, isUnit_iff_ne_zero, hdet2]
  constructor
  · unfold ekfUpdate
    split_ifs with hd
    · simp [hiff, hd]
    · simp [hiff, hd]
  · unfold ekfUpdate
    split_ifs with hd
    · simp [hiff, hd]
    · simp [hiff, hd]

/-- Accumulator relErrorX equals the guarded sum over the first N indices. -/
theorem relAccX_eq_sum (xs xh : ℕ → State K) :
    ∀ N, relAccX xs xh N =
      ∑ i in Finset.range N,
        (if eps < |xs i 0| then |xs i 0 - xh i 0| / |xs i 0| else 0)
  | 0 => by simp [relAccX]
  | N + 1 => by
    rw [Finset.sum_range_succ, ← relAccX_eq_sum xs xh N]
    by_cases hg : eps < |xs N 0|
    · simp [relAccX, hg]
    · simp [relAccX, hg]

/-- Accumulator relErrorZ equals the guarded sum over the first N indices. -/
theorem relAccZ_eq_sum (xs xh : ℕ → State K) :
    ∀ N, relAccZ xs xh N =
      ∑ i in Finset.range N,
        (if eps < |xs i 1| then |xs i 1 - xh i 1| / |xs i 1| else 0)
  | 0 => by simp [relAccZ]
  | N + 1 => by
    rw [Finset.sum_range_succ, ← relAccZ_eq_sum xs xh N]
    by_cases hg : eps < |xs N 1|
    · simp [relAccZ, hg]
    · simp [relAccZ, hg]

/-- Accumulator relErrorPhi equals the guarded sum over the first N
indices. -/
theorem relAccPhi_eq_sum (xs xh : ℕ → State K) :
    ∀ N, relAccPhi xs xh N =
      ∑ i in Finset.range N,
        (if eps < |xs i 2| then |xs i 2 - xh i 2| / |xs i 2| else 0)
  | 0 => by simp [relAccPhi]
  | N + 1 => by
    rw [Finset.sum_range_succ, ← relAccPhi_eq_sum xs xh N]
    by_cases hg : eps < |xs N 2|
    · simp [relAccPhi, hg]
    · simp [relAccPhi, hg]

/-- Accumulator relErrorDist equals the guarded sum over the first N
indices. -/
theorem relAccDist_eq_sum (env : Env K) (xs xh : ℕ → State K) :
    ∀ N, relAccDist env xs xh N =
      ∑ i in Finset.range N,
        (if eps < landDist env (xs i) then
          |landDist env (xs i) - landDist env (xh i)| / landDist env (xs i)
        else 0)
  | 0 => by simp [relAccDist]
  | N + 1 => by
    rw [Finset.sum_range_succ, ← relAccDist_eq_sum env xs xh N]
    by_cases hg : eps < landDist env (xs N)
    · simp [relAccDist, hg]
    · simp [relAccDist, hg]

/-- C9: in Estimator.calcError, for every trajectory length N > 0, each of
the four relative-error averages equals the sum of the per-index relative
errors restricted to the indices whose true value has magnitude above
1e-10, divided by the full length N, regardless of how many terms the
guard omitted.  The hypothesis on sqrt records that np.sqrt is nonnegative,
which identifies the source guard true_dist > 1e-10 with the magnitude
guard. -/
theorem calcError_relative_averages (env : Env K) (xs xh : ℕ → State K)
    (N : ℕ) (hN : 0 < N) (hsq : ∀ a, 0 ≤ env.sqrt a) :
    relAvgX xs xh N =
      (∑ i in Finset.range N,
        if eps < |xs i 0| then |xs i 0 - xh i 0| / |xs i 0| else 0) / N ∧
    relAvgZ xs xh N =
      (∑ i in Finset.range N,
        if eps < |xs i 1| then |xs i 1 - xh i 1| / |xs i 1| else 0) / N ∧
    relAvgPhi xs xh N =
      (∑ i in Finset.range N,
        if eps < |xs i 2| then |xs i 2 - xh i 2| / |xs i 2| else 0) / N ∧
    relAvgDist env xs xh N =
      (∑ i in Finset.range N,
        if eps < |landDist env (xs i)| then
          |landDist env (xs i) - landDist env (xh i)| / landDist env (xs i)
        else 0) / N := by
  refine ⟨?_, ?_, ?_, ?_⟩
  · unfold relAvgX
    rw [if_pos hN, relAccX_eq_sum]
  · unfold relAvgZ
    rw [if_pos hN, relAccZ_eq_sum]
  · unfold relAvgPhi
    rw [if_pos hN, relAccPhi_eq_sum]
  · unfold relAvgDist
    rw [if_pos hN, relAccDist_eq_sum]
    congr 1
    refine Finset.sum_congr rfl fun i _ => ?_
    rw [abs_of_nonneg (show (0 : K) ≤ landDist env (xs i) from hsq _)]

/-- C9 witness: the four average equalities at a concrete one-step
trajectory, with both hypotheses discharged. -/
theorem calcError_relative_averages_check :
    relAvgX xsZ xsZ 1 =
      (∑ i in Finset.range 1,
        if eps < |xsZ i 0| then |xsZ i 0 - xsZ i 0| / |xsZ i 0| else 0) / 1 ∧
    relAvgZ xsZ xsZ 1 =
      (∑ i in Finset.range 1,
        if eps < |xsZ i 1| then |xsZ i 1 - xsZ i 1| / |xsZ i 1| else 0) / 1 ∧
    relAvgPhi xsZ xsZ 1 =
      (∑ i in Finset.range 1,
        if eps < |xsZ i 2| then |xsZ i 2 - xsZ i 2| / |xsZ i 2| else 0) / 1 ∧
    relAvgDist env0 xsZ xsZ 1 =
      (∑ i in Finset.range 1,
        if eps < |landDist env0 (xsZ i)| then
          |landDist env0 (xsZ i) - landDist env0 (xsZ i)| / landDist env0 (xsZ i)
        else 0) / 1 :=
  calcError_relative_averages env0 xsZ xsZ 1 (by norm_num) (fun _ => le_refl 0)

/-- C2: the dead-reckoning estimate sequence is not a function of the
inputs and the seeded initial state alone: two runs with identical inputs
and identical initial true state, differing only in the true state at
index 1, produce different estimates at index 2, because the update reads
the true state at index t-1. -/
theorem dr_estimate_reads_perturbed_true_state :
    xsA 0 = xsB 0 ∧
    drEstimate env0 1 xsA usZ 2 ≠ drEstimate env0 1 xsB usZ 2 := by
  constructor
  · rfl
  · intro hEq
    have h0 := congrFun hEq 0
    rw [show drEstimate env0 1 xsA usZ 2 =
        deadReckonStep env0 1 (xsA 1)
          (deadReckonStep env0 1 (xsA 0) (xsA 0) (usZ 1)) (usZ 2) from rfl,
      show drEstimate env0 1 xsB usZ 2 =
        deadReckonStep env0 1 (xsB 1)
          (deadReckonStep env0 1 (xsB 0) (xsB 0) (usZ 1)) (usZ 2) from rfl] at h0
    norm_num [deadReckonStep, xsA, xsB, usZ, e3State, zeroState, zeroInput,
      bVec, drA, env0, Matrix.mulVec, Matrix.dotProduct, Fin.sum_univ_two,
      gr, m, Jmom] at h0

end Drone
